import Mathlib

/-!
A shallow embedding of the snake game in `the_snake.py`: the grid constants,
the `Apple` and `Snake` objects, key handling, and the per-tick orchestration
performed by `main`, together with proofs about the specified invariants.

Positions in the Python program are pixel coordinates (pairs of `int`), kept
aligned to the 20-pixel grid.  Randomness (`random.randint`) is modelled by
explicit sample streams `Nat → Nat × Nat`; `inRange` captures the bounds that
`randint(0, field_width - 1)` and `randint(0, field_height - 1)` guarantee.
Rendering, the window, the clock and the quit event are I/O and are not
modelled.  The unbounded resampling loop in the eating branch of `main` is
modelled with explicit fuel; a tick returns `none` when that loop does not
finish within the fuel (the Python program would never finish the tick in
that case).
-/

namespace TheSnake

/-- Constant `SCREEN_WIDTH = 640` (pixels). -/
def SCREEN_WIDTH : Int := 640

/-- Constant `SCREEN_HEIGHT = 480` (pixels). -/
def SCREEN_HEIGHT : Int := 480

/-- Constant `GRID_SIZE = 20` (pixels per cell). -/
def GRID_SIZE : Int := 20

/-- Constant `GRID_WIDTH = SCREEN_WIDTH // GRID_SIZE` (cells). -/
def GRID_WIDTH : Int := SCREEN_WIDTH / GRID_SIZE

/-- Constant `GRID_HEIGHT = SCREEN_HEIGHT // GRID_SIZE` (cells). -/
def GRID_HEIGHT : Int := SCREEN_HEIGHT / GRID_SIZE

/-- Positions are pairs of Python `int`s (pixel coordinates). -/
abbrev Position := Int × Int

/-- Direction constant `UP = (0, -1)`. -/
def UP : Position := (0, -1)

/-- Direction constant `DOWN = (0, 1)`. -/
def DOWN : Position := (0, 1)

/-- Direction constant `LEFT = (-1, 0)`. -/
def LEFT : Position := (-1, 0)

/-- Direction constant `RIGHT = (1, 0)`. -/
def RIGHT : Position := (1, 0)

/-- The `Apple` object.  Its `field_size` attribute is always
`(GRID_WIDTH, GRID_HEIGHT)` (the value passed by `main`), so only the
`position` attribute is carried. -/
structure Apple where
  position : Position
  deriving DecidableEq

/-- One `randint` pair drawn by `Apple.randomize_position`:
`x_cell = randint(0, field_width - 1)`, `y_cell = randint(0, field_height - 1)`. -/
def inRange (rnd : Nat × Nat) : Prop :=
  (rnd.1 : Int) ≤ GRID_WIDTH - 1 ∧ (rnd.2 : Int) ≤ GRID_HEIGHT - 1

instance (rnd : Nat × Nat) : Decidable (inRange rnd) := by
  unfold inRange; infer_instance

/-- Method `Apple.randomize_position` applied to one drawn `randint` pair:
`x = x_cell * GRID_SIZE`, `y = y_cell * GRID_SIZE`, assigned as the position. -/
def randomize_position (rnd : Nat × Nat) : Position :=
  ((rnd.1 : Int) * GRID_SIZE, (rnd.2 : Int) * GRID_SIZE)

/-- The `Snake` object: `length`, `positions` (head first), `direction`,
`next_direction`, the inherited `GameObject.position` mirror of the head, and
`last` (the erased tail cell, only used for drawing). -/
structure Snake where
  length : Nat
  positions : List Position
  direction : Position
  next_direction : Option Position
  position : Position
  last : Option Position
  deriving DecidableEq

/-- `Snake.__init__(start_position)`. -/
def Snake.init (start : Position) : Snake :=
  { length := 1, positions := [start], direction := RIGHT, next_direction := none,
    position := start, last := none }

/-- Method `Snake.update_direction`: if `next_direction` is set (direction
tuples are always truthy in Python) it becomes `direction` and is cleared. -/
def Snake.update_direction (s : Snake) : Snake :=
  match s.next_direction with
  | some d => { s with direction := d, next_direction := none }
  | none => s

/-- Wall teleport of `Snake.move` on one axis (`bound` is `SCREEN_WIDTH` for x
and `SCREEN_HEIGHT` for y): `if c < 0: c = bound - GRID_SIZE`
`elif c >= bound: c = 0`. -/
def wrapCoord (bound : Int) (c : Int) : Int :=
  if c < 0 then bound - GRID_SIZE
  else if bound ≤ c then 0
  else c

/-- The new head computed by `Snake.move` from `positions[0]` and
`direction`, after the wall teleport.  `positions[0]` is modelled with
`headI`; the empty case never arises in reachable states. -/
def Snake.new_head (s : Snake) : Position :=
  (wrapCoord SCREEN_WIDTH (s.positions.headI.1 + s.direction.1 * GRID_SIZE),
   wrapCoord SCREEN_HEIGHT (s.positions.headI.2 + s.direction.2 * GRID_SIZE))

/-- Method `Snake.move`: record `last = positions[-1]`, prepend the new head,
pop the tail when the segment count exceeds `length`, and mirror the head in
`position`. -/
def Snake.move (s : Snake) : Snake :=
  { s with
    positions :=
      if (s.new_head :: s.positions).length > s.length
      then (s.new_head :: s.positions).dropLast
      else s.new_head :: s.positions,
    position := s.new_head,
    last := s.positions.getLast? }

/-- Method `Snake.get_head_position`: `positions[0] if positions else (0, 0)`. -/
def Snake.get_head_position (s : Snake) : Position :=
  s.positions.headD (0, 0)

/-- Method `Snake.reset(start_position)`. -/
def Snake.reset (_s : Snake) (start : Position) : Snake :=
  { length := 1, positions := [start], direction := RIGHT, next_direction := none,
    position := start, last := none }

/-- The statement `snake.length += 1` in the eating branch of `main`
(the spec's `grow()`). -/
def Snake.grow (s : Snake) : Snake :=
  { s with length := s.length + 1 }

/-- One arrow-key `KEYDOWN` event. -/
inductive Key where
  | up
  | down
  | left
  | right
  deriving DecidableEq

/-- The direction an arrow key requests. -/
def keyDirection : Key → Position
  | Key.up => UP
  | Key.down => DOWN
  | Key.left => LEFT
  | Key.right => RIGHT

/-- The opposite of a direction vector (spec vocabulary for the reversal
check). -/
def opposite (d : Position) : Position := (-d.1, -d.2)

/-- One `KEYDOWN` case of `handle_keys`: the pending direction is set unless
the current direction is the reverse of the requested one. -/
def handle_key (s : Snake) (k : Key) : Snake :=
  match k with
  | Key.up => if s.direction ≠ DOWN then { s with next_direction := some UP } else s
  | Key.down => if s.direction ≠ UP then { s with next_direction := some DOWN } else s
  | Key.left => if s.direction ≠ RIGHT then { s with next_direction := some LEFT } else s
  | Key.right => if s.direction ≠ LEFT then { s with next_direction := some RIGHT } else s

/-- Function `handle_keys`: fold over the polled `KEYDOWN` events (quit
events terminate the process and are not modelled). -/
def handle_keys (s : Snake) (ks : List Key) : Snake :=
  ks.foldl handle_key s

/-- Function `check_collision`: head equals the apple's position. -/
def check_collision (snake : Snake) (apple : Apple) : Bool :=
  decide (snake.get_head_position = apple.position)

/-- Function `check_self_collision`: head occurs in `positions[1:]`. -/
def check_self_collision (snake : Snake) : Bool :=
  decide (snake.get_head_position ∈ snake.positions.tail)

/-- Local `start_position` of `main`. -/
def start_position : Position :=
  ((SCREEN_WIDTH / 2) / GRID_SIZE * GRID_SIZE,
   (SCREEN_HEIGHT / 2) / GRID_SIZE * GRID_SIZE)

/-- The resampling loop of the eating branch of `main`:
`apple.randomize_position()` followed by
`while apple.position in snake.positions: apple.randomize_position()`.
Returns the index into the sample stream `r` at which the loop stops, with
explicit `fuel` bounding the number of samples inspected. -/
def findFreeIdx (r : Nat → Nat × Nat) (excluded : List Position) :
    Nat → Nat → Option Nat
  | 0, _ => none
  | fuel + 1, n =>
    if randomize_position (r n) ∈ excluded then findFreeIdx r excluded fuel (n + 1)
    else some n

/-- The mutable state owned by `main`: the snake and the apple. -/
structure GameState where
  snake : Snake
  apple : Apple
  deriving DecidableEq

/-- The state after `snake = Snake(start_position)` and
`apple = Apple(field_size)` in `main`; `r0` is the `randint` pair drawn by
the apple's initial `randomize_position`. -/
def initialState (r0 : Nat × Nat) : GameState :=
  { snake := Snake.init start_position, apple := { position := randomize_position r0 } }

/-- The snake after the first three statements of a tick of `main`:
`handle_keys(snake)`, `snake.update_direction()`, `snake.move()`. -/
def postMove (ks : List Key) (g : GameState) : Snake :=
  ((handle_keys g.snake ks).update_direction).move

/-- One iteration of the `while True` loop of `main` (rendering dropped):
input handling, direction commit, move, the eating branch
(`length += 1` and the exclusion resampling loop, fed by the stream `r` with
the given `fuel`), then the self-collision branch (`reset` and a single
un-excluded `randomize_position`, fed by the pair `rc`).  `none` models the
eating branch's resampling loop not finishing. -/
def tick (ks : List Key) (r : Nat → Nat × Nat) (fuel : Nat) (rc : Nat × Nat)
    (g : GameState) : Option GameState :=
  let s := postMove ks g
  if check_collision s g.apple then
    let s1 := s.grow
    (findFreeIdx r s1.positions fuel 0).map (fun n =>
      let g1 : GameState := { snake := s1, apple := { position := randomize_position (r n) } }
      if check_self_collision g1.snake then
        { snake := g1.snake.reset start_position,
          apple := { position := randomize_position rc } }
      else g1)
  else
    if check_self_collision s then
      some { snake := s.reset start_position,
             apple := { position := randomize_position rc } }
    else some { snake := s, apple := g.apple }

/-- Game states reachable by `main`: the initial state, closed under ticks
with arbitrary key events and in-range random samples. -/
inductive GReachable : GameState → Prop where
  | init : ∀ r0, inRange r0 → GReachable (initialState r0)
  | step : ∀ g ks r fuel rc g', GReachable g → (∀ n, inRange (r n)) → inRange rc →
      tick ks r fuel rc g = some g' → GReachable g'

/-- Snake states reachable from construction through the snake's operations
(key handling, direction commit, move, growth, reset). -/
inductive SReachable : Snake → Prop where
  | init : ∀ start, SReachable (Snake.init start)
  | key : ∀ s k, SReachable s → SReachable (handle_key s k)
  | commit : ∀ s, SReachable s → SReachable s.update_direction
  | move : ∀ s, SReachable s → SReachable s.move
  | grow : ∀ s, SReachable s → SReachable s.grow
  | reset : ∀ s p, SReachable s → SReachable (s.reset p)

/-! Basic lemmas about the snake's operations. -/

@[simp]
lemma handle_key_positions (s : Snake) (k : Key) : (handle_key s k).positions = s.positions := by
  cases k <;> · simp only [handle_key]; split <;> rfl

@[simp]
lemma handle_key_length (s : Snake) (k : Key) : (handle_key s k).length = s.length := by
  cases k <;> · simp only [handle_key]; split <;> rfl

@[simp]
lemma handle_keys_positions (s : Snake) (ks : List Key) :
    (handle_keys s ks).positions = s.positions := by
  induction ks generalizing s with
  | nil => rfl
  | cons k ks ih => simpa [handle_keys, List.foldl_cons] using ih (handle_key s k)

@[simp]
lemma handle_keys_length (s : Snake) (ks : List Key) :
    (handle_keys s ks).length = s.length := by
  induction ks generalizing s with
  | nil => rfl
  | cons k ks ih => simpa [handle_keys, List.foldl_cons] using ih (handle_key s k)

@[simp]
lemma update_direction_positions (s : Snake) :
    s.update_direction.positions = s.positions := by
  unfold Snake.update_direction; cases s.next_direction <;> rfl

@[simp]
lemma update_direction_length (s : Snake) :
    s.update_direction.length = s.length := by
  unfold Snake.update_direction; cases s.next_direction <;> rfl

@[simp]
lemma grow_positions (s : Snake) : s.grow.positions = s.positions := rfl

@[simp]
lemma grow_length (s : Snake) : s.grow.length = s.length + 1 := rfl

@[simp]
lemma move_length (s : Snake) : s.move.length = s.length := rfl

@[simp]
lemma reset_positions (s : Snake) (p : Position) : (s.reset p).positions = [p] := rfl

@[simp]
lemma reset_length (s : Snake) (p : Position) : (s.reset p).length = 1 := rfl

@[simp]
lemma check_self_collision_grow (s : Snake) :
    check_self_collision s.grow = check_self_collision s := rfl

lemma move_positions_eq (s : Snake) :
    s.move.positions =
      if s.positions.length + 1 > s.length
      then (s.new_head :: s.positions).dropLast
      else s.new_head :: s.positions := by
  simp [Snake.move]

/-- After a move on a non-empty snake, the position list is the new head
followed by a sublist of the previous position list. -/
lemma move_spec (s : Snake) (p : Position) (rest : List Position)
    (hp : s.positions = p :: rest) :
    ∃ T, s.move.positions = s.new_head :: T ∧ List.Sublist T s.positions := by
  rw [move_positions_eq]
  split
  · refine ⟨(p :: rest).dropLast, ?_, ?_⟩
    · rw [hp]; rfl
    · rw [hp]; exact List.dropLast_sublist (p :: rest)
  · exact ⟨s.positions, rfl, List.Sublist.refl _⟩

/-- Moving a single-segment snake of target length 1 pops the old head. -/
lemma move_singleton (s : Snake) (p : Position) (hp : s.positions = [p])
    (hl : s.length = 1) : s.move.positions = [s.new_head] := by
  rw [move_positions_eq, hp, hl]
  simp

lemma move_len_le (s : Snake) (h : s.positions.length ≤ s.length) :
    s.move.positions.length ≤ s.length := by
  rw [move_positions_eq]
  split <;> rename_i hcmp
  · simpa [List.length_dropLast] using h
  · simp only [List.length_cons]; omega

/-- When there is room to grow, a move does not pop the tail. -/
lemma move_positions_of_lt (s : Snake) (h : s.positions.length + 1 ≤ s.length) :
    s.move.positions = s.new_head :: s.positions := by
  rw [move_positions_eq]
  split <;> [omega; rfl]

lemma move_ne_nil (s : Snake) (p : Position) (rest : List Position)
    (hp : s.positions = p :: rest) : s.move.positions ≠ [] := by
  obtain ⟨T, hT, -⟩ := move_spec s p rest hp
  simp [hT]

lemma move_head (s : Snake) (p : Position) (rest : List Position)
    (hp : s.positions = p :: rest) :
    s.move.get_head_position = s.new_head := by
  obtain ⟨T, hT, -⟩ := move_spec s p rest hp
  simp [Snake.get_head_position, hT]

/-! The invariant maintained by the tick loop of `main`. -/

@[simp]
lemma GRID_WIDTH_eq : GRID_WIDTH = 32 := by decide

@[simp]
lemma GRID_HEIGHT_eq : GRID_HEIGHT = 24 := by decide

/-- A well-formed position: pixel coordinates on the screen, aligned to the
20-pixel grid. -/
def posOK (p : Position) : Prop :=
  0 ≤ p.1 ∧ p.1 < SCREEN_WIDTH ∧ GRID_SIZE ∣ p.1 ∧
  0 ≤ p.2 ∧ p.2 < SCREEN_HEIGHT ∧ GRID_SIZE ∣ p.2

instance (p : Position) : Decidable (posOK p) := by
  unfold posOK; infer_instance

lemma posOK_randomize (rnd : Nat × Nat) (h : inRange rnd) :
    posOK (randomize_position rnd) := by
  obtain ⟨h1, h2⟩ := h
  rw [GRID_WIDTH_eq] at h1
  rw [GRID_HEIGHT_eq] at h2
  refine ⟨?_, ?_, dvd_mul_left _ _, ?_, ?_, dvd_mul_left _ _⟩ <;>
    simp only [randomize_position, GRID_SIZE, SCREEN_WIDTH, SCREEN_HEIGHT] <;> omega

lemma posOK_start : posOK start_position := by decide

lemma wrapCoord_posOK (bound x : Int) (hdvd20 : GRID_SIZE ∣ bound)
    (hge : GRID_SIZE ≤ bound) (hxdvd : GRID_SIZE ∣ x) :
    0 ≤ wrapCoord bound x ∧ wrapCoord bound x < bound ∧ GRID_SIZE ∣ wrapCoord bound x := by
  unfold wrapCoord
  have h20 : GRID_SIZE = 20 := rfl
  split <;> rename_i hlt
  · exact ⟨by omega, by omega, dvd_sub hdvd20 dvd_rfl⟩
  · split <;> rename_i hub
    · exact ⟨le_refl 0, by omega, dvd_zero _⟩
    · exact ⟨by omega, by omega, hxdvd⟩

lemma posOK_new_head (s : Snake) (p : Position) (rest : List Position)
    (hp : s.positions = p :: rest) (hpOK : posOK p) : posOK s.new_head := by
  obtain ⟨h1, h2, h3, h4, h5, h6⟩ := hpOK
  have hh : s.positions.headI = p := by rw [hp]; rfl
  have hx := wrapCoord_posOK SCREEN_WIDTH (p.1 + s.direction.1 * GRID_SIZE)
    (by decide) (by decide) (dvd_add h3 (dvd_mul_left _ _))
  have hy := wrapCoord_posOK SCREEN_HEIGHT (p.2 + s.direction.2 * GRID_SIZE)
    (by decide) (by decide) (dvd_add h6 (dvd_mul_left _ _))
  unfold Snake.new_head
  rw [hh]
  exact ⟨hx.1, hx.2.1, hx.2.2, hy.1, hy.2.1, hy.2.2⟩

/-- The sampling loop, when it stops, stops outside the excluded list. -/
lemma findFreeIdx_spec (r : Nat → Nat × Nat) (excl : List Position) :
    ∀ fuel start n, findFreeIdx r excl fuel start = some n →
      randomize_position (r n) ∉ excl := by
  intro fuel
  induction fuel with
  | zero => intro start n h; simp [findFreeIdx] at h
  | succ fuel ih =>
    intro start n h
    by_cases hmem : randomize_position (r start) ∈ excl
    · rw [findFreeIdx, if_pos hmem] at h
      exact ih _ _ h
    · rw [findFreeIdx, if_neg hmem] at h
      obtain rfl : start = n := by simpa using h
      exact hmem

/-- The inductive invariant of the tick loop: the snake is non-empty, its
segment count is bounded by `length`, every position is a well-formed grid
cell, and the apple either avoids the snake entirely or the snake is the
freshly (re)started single segment. -/
def Inv (g : GameState) : Prop :=
  g.snake.positions ≠ [] ∧
  g.snake.positions.length ≤ g.snake.length ∧
  (∀ p ∈ g.snake.positions, posOK p) ∧
  posOK g.apple.position ∧
  (g.apple.position ∉ g.snake.positions ∨
    (g.snake.positions.tail = [] ∧ g.snake.length = 1))

lemma inv_init (r0 : Nat × Nat) (h : inRange r0) : Inv (initialState r0) := by
  refine ⟨by simp [initialState, Snake.init], by simp [initialState, Snake.init],
    ?_, posOK_randomize r0 h, Or.inr ⟨rfl, rfl⟩⟩
  intro p hp
  simp only [initialState, Snake.init, List.mem_singleton] at hp
  subst hp
  exact posOK_start

lemma inv_reset_state (s' : Snake) (rc : Nat × Nat) (hrc : inRange rc) :
    Inv { snake := s'.reset start_position,
          apple := { position := randomize_position rc } } := by
  refine ⟨by simp, by simp, ?_, posOK_randomize rc hrc, Or.inr ⟨rfl, rfl⟩⟩
  intro p hp
  simp only [reset_positions, List.mem_singleton] at hp
  subst hp
  exact posOK_start

/-- Structure of the snake right after the move phase of a tick: the head is
followed by a sublist of the previous position list, the target length is
unchanged, and a single-segment snake of target length 1 ends with an empty
tail. -/
lemma postMove_spec (g : GameState) (ks : List Key) (p : Position)
    (rest : List Position) (hp : g.snake.positions = p :: rest) :
    ∃ T, (postMove ks g).positions = (postMove ks g).get_head_position :: T ∧
      List.Sublist T g.snake.positions ∧
      (postMove ks g).length = g.snake.length ∧
      (rest = [] → g.snake.length = 1 → T = []) := by
  set q := (handle_keys g.snake ks).update_direction with hqdef
  have hq_pos : q.positions = g.snake.positions := by
    rw [hqdef]; simp
  have hq_len : q.length = g.snake.length := by
    rw [hqdef]; simp
  have hqp : q.positions = p :: rest := by rw [hq_pos, hp]
  have hpm : postMove ks g = q.move := rfl
  obtain ⟨T, hT, hTsub⟩ := move_spec q p rest hqp
  have hhead : (postMove ks g).get_head_position = q.new_head := by
    rw [hpm]; exact move_head q p rest hqp
  refine ⟨T, ?_, ?_, ?_, ?_⟩
  · rw [hhead, hpm]; exact hT
  · rwa [hq_pos] at hTsub
  · rw [hpm, move_length, hq_len]
  · intro hrest hone
    have hsingle : q.move.positions = [q.new_head] :=
      move_singleton q p (by rw [hqp, hrest]) (by rw [hq_len]; exact hone)
    have : q.new_head :: T = [q.new_head] := by rw [← hT, hsingle]
    simpa using this.symm

lemma postMove_head_posOK (g : GameState) (ks : List Key) (p : Position)
    (rest : List Position) (hp : g.snake.positions = p :: rest) (hpOK : posOK p) :
    posOK (postMove ks g).get_head_position := by
  set q := (handle_keys g.snake ks).update_direction with hqdef
  have hqp : q.positions = p :: rest := by rw [hqdef]; simpa using hp
  have hhead : (postMove ks g).get_head_position = q.new_head :=
    move_head q p rest hqp
  rw [hhead]
  exact posOK_new_head q p rest hqp hpOK

lemma postMove_len_le (g : GameState) (ks : List Key)
    (h : g.snake.positions.length ≤ g.snake.length) :
    (postMove ks g).positions.length ≤ g.snake.length := by
  have hmv : postMove ks g = ((handle_keys g.snake ks).update_direction).move := rfl
  rw [hmv]
  have := move_len_le ((handle_keys g.snake ks).update_direction) (by simpa using h)
  simpa using this

/-- Preservation of the loop invariant by one tick. -/
lemma inv_step {g g' : GameState} {ks : List Key} {r : Nat → Nat × Nat}
    {fuel : Nat} {rc : Nat × Nat} (hInv : Inv g) (hr : ∀ n, inRange (r n))
    (hrc : inRange rc) (ht : tick ks r fuel rc g = some g') : Inv g' := by
  obtain ⟨hne, hlen, hall, happ, hfood⟩ := hInv
  obtain ⟨p, rest, hp⟩ := List.exists_cons_of_ne_nil hne
  obtain ⟨T, hTpos, hTsub, hlenEq, hTone⟩ := postMove_spec g ks p rest hp
  have hheadOK : posOK (postMove ks g).get_head_position :=
    postMove_head_posOK g ks p rest hp (hall p (hp ▸ List.mem_cons_self p rest))
  have hallS : ∀ x ∈ (postMove ks g).positions, posOK x := by
    intro x hx
    rw [hTpos] at hx
    rcases List.mem_cons.mp hx with rfl | hx
    · exact hheadOK
    · exact hall x (hTsub.subset hx)
  have hlenS : (postMove ks g).positions.length ≤ g.snake.length :=
    postMove_len_le g ks hlen
  simp only [tick] at ht
  cases hc : check_collision (postMove ks g) g.apple with
  | true =>
    rw [if_pos hc] at ht
    cases hf : findFreeIdx r ((postMove ks g).grow).positions fuel 0 with
    | none => rw [hf] at ht; exact absurd ht (by simp)
    | some n =>
      rw [hf] at ht
      simp only [Option.map_some', Option.some.injEq] at ht
      cases hsc : check_self_collision ((postMove ks g).grow) with
      | true =>
        rw [if_pos hsc] at ht
        subst ht
        exact inv_reset_state _ rc hrc
      | false =>
        rw [if_neg (by simp [hsc])] at ht
        subst ht
        refine ⟨by simp [hTpos], ?_, by simpa using hallS,
          posOK_randomize _ (hr n), Or.inl ?_⟩
        · simp only [grow_positions, grow_length]
          omega
        · exact findFreeIdx_spec r _ fuel 0 n hf
  | false =>
    rw [if_neg (by simp [hc])] at ht
    cases hsc : check_self_collision (postMove ks g) with
    | true =>
      rw [if_pos hsc, Option.some.injEq] at ht
      subst ht
      exact inv_reset_state _ rc hrc
    | false =>
      rw [if_neg (by simp [hsc]), Option.some.injEq] at ht
      subst ht
      refine ⟨by simp [hTpos], ?_, hallS, happ, Or.inl ?_⟩
      · show (postMove ks g).positions.length ≤ (postMove ks g).length
        rw [hlenEq]
        exact hlenS
      intro hmem
      rw [hTpos] at hmem
      rcases List.mem_cons.mp hmem with heq | hmem
      · have : (postMove ks g).get_head_position ≠ g.apple.position := by
          simpa [check_collision] using hc
        exact this heq.symm
      · have hmem' : g.apple.position ∈ g.snake.positions := hTsub.subset hmem
        rcases hfood with hfood | ⟨htail, hone⟩
        · exact hfood hmem'
        · have hrest : rest = [] := by
            rw [hp] at htail
            simpa using htail
          have : T = [] := hTone hrest hone
          rw [this] at hmem
          simp at hmem

/-- Every state reachable by `main` satisfies the loop invariant. -/
lemma reachable_inv {g : GameState} (hg : GReachable g) : Inv g := by
  induction hg with
  | init r0 h => exact inv_init r0 h
  | step g ks r fuel rc g' _ hr hrc ht ih => exact inv_step ih hr hrc ht

/-- In an invariant state, the eating branch and the self-collision branch of
a tick cannot both fire. -/
lemma inv_no_cofire {g : GameState} (hInv : Inv g) (ks : List Key) :
    ¬(check_collision (postMove ks g) g.apple = true ∧
      check_self_collision (postMove ks g) = true) := by
  obtain ⟨hne, hlen, -, -, hfood⟩ := hInv
  obtain ⟨p, rest, hp⟩ := List.exists_cons_of_ne_nil hne
  obtain ⟨T, hTpos, hTsub, -, hTone⟩ := postMove_spec g ks p rest hp
  rintro ⟨hc, hsc⟩
  have hhead : (postMove ks g).get_head_position = g.apple.position := by
    simpa [check_collision] using hc
  have hmemT : g.apple.position ∈ T := by
    have h1 : (postMove ks g).get_head_position ∈ (postMove ks g).positions.tail := by
      simpa [check_self_collision] using hsc
    rw [hTpos] at h1
    rw [← hhead]
    simpa using h1
  rcases hfood with hfood | ⟨htail, hone⟩
  · exact hfood (hTsub.subset hmemT)
  · have hrest : rest = [] := by
      rw [hp] at htail
      simpa using htail
    have : T = [] := hTone hrest hone
    rw [this] at hmemT
    simp at hmemT

/-! Wrap-around movement (claim C2). -/

lemma wrapCoord_eq_emod (W x δ : Int) (hW : W = SCREEN_WIDTH ∨ W = SCREEN_HEIGHT)
    (h0 : 0 ≤ x) (h1 : x < W) (hdvd : GRID_SIZE ∣ x)
    (hδ : δ = -1 ∨ δ = 0 ∨ δ = 1) :
    wrapCoord W (x + δ * GRID_SIZE) = (x + δ * GRID_SIZE) % W := by
  obtain ⟨c, hc⟩ := hdvd
  subst hc
  rcases hW with rfl | rfl <;> rcases hδ with rfl | rfl | rfl <;>
    · simp only [wrapCoord, GRID_SIZE, SCREEN_WIDTH, SCREEN_HEIGHT] at *
      split_ifs <;> omega

/-- C2: for every grid-aligned in-bounds head position and every one of the
four directions, `Snake.move` sets the new head to the old head plus the
direction vector times the cell size, taken modulo the screen extent on each
axis independently (positions are pixels, so the grid dimensions are
`SCREEN_WIDTH` and `SCREEN_HEIGHT`); wrap-around at each edge is the modulo
instance at that edge. -/
theorem advance_wraps_modulo (s : Snake) (p : Position) (rest : List Position)
    (hp : s.positions = p :: rest)
    (hdir : s.direction ∈ [UP, DOWN, LEFT, RIGHT])
    (hx0 : 0 ≤ p.1) (hx1 : p.1 < SCREEN_WIDTH) (hxd : GRID_SIZE ∣ p.1)
    (hy0 : 0 ≤ p.2) (hy1 : p.2 < SCREEN_HEIGHT) (hyd : GRID_SIZE ∣ p.2) :
    s.move.get_head_position =
      ((p.1 + s.direction.1 * GRID_SIZE) % SCREEN_WIDTH,
       (p.2 + s.direction.2 * GRID_SIZE) % SCREEN_HEIGHT) := by
  have hd : s.direction = UP ∨ s.direction = DOWN ∨ s.direction = LEFT ∨
      s.direction = RIGHT := by simpa using hdir
  have hd1 : s.direction.1 = -1 ∨ s.direction.1 = 0 ∨ s.direction.1 = 1 := by
    rcases hd with h | h | h | h <;> rw [h] <;> decide
  have hd2 : s.direction.2 = -1 ∨ s.direction.2 = 0 ∨ s.direction.2 = 1 := by
    rcases hd with h | h | h | h <;> rw [h] <;> decide
  rw [move_head s p rest hp]
  unfold Snake.new_head
  rw [show s.positions.headI = p by rw [hp]; rfl]
  have ex := wrapCoord_eq_emod SCREEN_WIDTH p.1 s.direction.1 (Or.inl rfl) hx0 hx1 hxd hd1
  have ey := wrapCoord_eq_emod SCREEN_HEIGHT p.2 s.direction.2 (Or.inr rfl) hy0 hy1 hyd hd2
  simp only [Prod.mk.injEq]
  exact ⟨ex, ey⟩

/-- A snake whose head sits in the rightmost column, moving right. -/
def edgeSnake : Snake :=
  { length := 1, positions := [(620, 240)], direction := RIGHT,
    next_direction := none, position := (620, 240), last := none }

theorem advance_wraps_modulo_witness : edgeSnake.move.get_head_position = (0, 240) := by
  have h := advance_wraps_modulo edgeSnake (620, 240) [] rfl (by decide) (by decide)
    (by decide) (by decide) (by decide) (by decide) (by decide)
  rw [h]
  decide

/-! Direction arbitration (claim C3). -/

lemma opposite_opposite (d : Position) : opposite (opposite d) = d := by
  simp [opposite]

lemma eq_opposite_iff (a b : Position) : a = opposite b ↔ b = opposite a := by
  constructor <;> (rintro rfl; simp [opposite])

/-- The `KEYDOWN` handling of `handle_keys` sets the pending direction unless
the requested direction is the reverse of the current one. -/
lemma handle_key_eq (s : Snake) (k : Key) :
    handle_key s k =
      if s.direction = opposite (keyDirection k) then s
      else { s with next_direction := some (keyDirection k) } := by
  cases k with
  | up =>
    simp only [handle_key, keyDirection, ne_eq, ite_not]
    rw [show opposite UP = DOWN from by decide]
  | down =>
    simp only [handle_key, keyDirection, ne_eq, ite_not]
    rw [show opposite DOWN = UP from by decide]
  | left =>
    simp only [handle_key, keyDirection, ne_eq, ite_not]
    rw [show opposite LEFT = RIGHT from by decide]
  | right =>
    simp only [handle_key, keyDirection, ne_eq, ite_not]
    rw [show opposite RIGHT = LEFT from by decide]

/-- C3: with no pending request outstanding, requesting direction `d` via a
key press and then committing yields `d` when `d` is not the reverse of the
current direction, and leaves the direction unchanged (the request is a
no-op) when it is. -/
theorem pending_direction_commit (s : Snake) (k : Key)
    (hpend : s.next_direction = none) :
    ((handle_key s k).update_direction).direction =
      if keyDirection k = opposite s.direction then s.direction
      else keyDirection k := by
  rw [handle_key_eq]
  by_cases h : s.direction = opposite (keyDirection k)
  · rw [if_pos h]
    have h2 : s.update_direction = s := by simp [Snake.update_direction, hpend]
    rw [h2, if_pos ((eq_opposite_iff s.direction (keyDirection k)).mp h)]
  · rw [if_neg h]
    have h2 : ({ s with next_direction := some (keyDirection k) } : Snake).update_direction
        = { s with direction := keyDirection k, next_direction := none } := rfl
    rw [h2, if_neg fun hc => h ((eq_opposite_iff (keyDirection k) s.direction).mp hc)]

/-- A snake currently moving left with no pending request. -/
def leftSnake : Snake :=
  { length := 3, positions := [(100, 100), (120, 100), (140, 100)], direction := LEFT,
    next_direction := none, position := (100, 100), last := none }

theorem pending_direction_commit_witness :
    ((handle_key leftSnake Key.right).update_direction).direction = LEFT := by
  have h := pending_direction_commit leftSnake Key.right rfl
  rw [h]
  decide

/-! Segment-count bounds (claims C4 and C9). -/

lemma sreachable_len_le {s : Snake} (h : SReachable s) :
    s.positions.length ≤ s.length := by
  induction h with
  | init start => simp [Snake.init]
  | key s k _ ih => simpa using ih
  | commit s _ ih => simpa using ih
  | move s _ ih => rw [move_length]; exact move_len_le s ih
  | grow s _ ih => simp only [grow_positions, grow_length]; omega
  | reset s p _ => simp

lemma grow_iter (s : Snake) (k : Nat) :
    (Snake.grow^[k] s).positions = s.positions ∧
    (Snake.grow^[k] s).length = s.length + k := by
  induction k with
  | zero => simp
  | succ k ih =>
    rw [Function.iterate_succ_apply']
    refine ⟨by rw [grow_positions, ih.1], ?_⟩
    rw [grow_length, ih.2]
    omega

lemma move_iter_len (k : Nat) : ∀ s : Snake, s.positions.length + k ≤ s.length →
    (Snake.move^[k] s).positions.length = s.positions.length + k ∧
    (Snake.move^[k] s).length = s.length := by
  induction k with
  | zero => intro s _; simp
  | succ k ih =>
    intro s h
    rw [Function.iterate_succ_apply]
    have hmv : s.move.positions = s.new_head :: s.positions :=
      move_positions_of_lt s (by omega)
    have h2 : s.move.positions.length + k ≤ s.move.length := by
      rw [hmv, move_length]
      simp only [List.length_cons]
      omega
    obtain ⟨ha, hb⟩ := ih s.move h2
    refine ⟨?_, by rw [hb, move_length]⟩
    rw [ha, hmv]
    simp only [List.length_cons]
    omega

/-- C4: in every state reachable through the snake's operations the segment
count is at most `length`, and after increasing `length` by `k` and then
advancing `k` times the segment count is the initial count plus `k`, capped
at the (new) target length. -/
theorem segment_count_bounded_and_grows (s : Snake) (k : Nat) (h : SReachable s) :
    s.positions.length ≤ s.length ∧
    (Snake.move^[k] (Snake.grow^[k] s)).positions.length =
      min (s.positions.length + k) ((Snake.grow^[k] s).length) := by
  have h1 := sreachable_len_le h
  refine ⟨h1, ?_⟩
  obtain ⟨hgp, hgl⟩ := grow_iter s k
  have h2 : (Snake.grow^[k] s).positions.length + k ≤ (Snake.grow^[k] s).length := by
    rw [hgp, hgl]; omega
  obtain ⟨ha, -⟩ := move_iter_len k (Snake.grow^[k] s) h2
  rw [ha, hgp, hgl]
  omega

theorem segment_count_bounded_and_grows_witness :
    (Snake.init start_position).positions.length ≤ (Snake.init start_position).length ∧
    (Snake.move^[2] (Snake.grow^[2] (Snake.init start_position))).positions.length =
      min ((Snake.init start_position).positions.length + 2)
        ((Snake.grow^[2] (Snake.init start_position)).length) :=
  segment_count_bounded_and_grows (Snake.init start_position) 2
    (SReachable.init start_position)

/-- C9: in every state reachable through the snake's operations the segment
list is non-empty, so `get_head_position` returns the first segment and the
`positions[0]` access in `move` never hits the empty case. -/
theorem snake_positions_ne_nil (s : Snake) (h : SReachable s) : s.positions ≠ [] := by
  induction h with
  | init start => simp [Snake.init]
  | key s k _ ih => simpa using ih
  | commit s _ ih => simpa using ih
  | move s _ ih =>
    obtain ⟨p, rest, hp⟩ := List.exists_cons_of_ne_nil ih
    exact move_ne_nil s p rest hp
  | grow s _ ih => simpa using ih
  | reset s p _ => simp

theorem snake_positions_ne_nil_witness :
    (Snake.init start_position).positions ≠ [] :=
  snake_positions_ne_nil (Snake.init start_position) (SReachable.init start_position)

/-- C5: whenever the relocation sampling loop of the eating branch finishes,
the position it stops at is not a member of the excluded list. -/
theorem relocate_avoids_excluded (r : Nat → Nat × Nat) (excl : List Position)
    (fuel start n : Nat) (h : findFreeIdx r excl fuel start = some n) :
    randomize_position (r n) ∉ excl :=
  findFreeIdx_spec r excl fuel start n h

/-- A constant sample stream used by concrete witnesses. -/
def constSample : Nat → Nat × Nat := fun _ => (1, 0)

theorem relocate_avoids_excluded_witness :
    randomize_position (constSample 0) ∉ [((0 : Int), (0 : Int))] :=
  relocate_avoids_excluded constSample [((0 : Int), (0 : Int))] 1 0 0 (by decide)

/-- C6: from every reachable game state, for every key input, the eating
branch and the self-collision branch of a tick cannot both fire: the
eating test and the self-collision test of the moved snake (the latter is
unchanged by the `length` increment, see `check_self_collision_grow`) are
never simultaneously true. -/
theorem eat_and_self_collision_exclusive (g : GameState) (hg : GReachable g)
    (ks : List Key) :
    ¬(check_collision (postMove ks g) g.apple = true ∧
      check_self_collision (postMove ks g) = true) :=
  inv_no_cofire (reachable_inv hg) ks

theorem eat_and_self_collision_exclusive_witness :
    ¬(check_collision (postMove [] (initialState (0, 0))) (initialState (0, 0)).apple = true ∧
      check_self_collision (postMove [] (initialState (0, 0))) = true) :=
  eat_and_self_collision_exclusive (initialState (0, 0))
    (GReachable.init (0, 0) (by decide)) []

/-! Food placement after the two branches (claim C1). -/

/-- C1 (amended): after a tick whose eating branch fired, the relocated
food avoids every snake segment (the resampling loop of the eating branch
excludes the whole body, and the self-collision branch cannot fire in the
same tick from a reachable state). -/
theorem eat_branch_relocation_avoids_snake (g g' : GameState) (ks : List Key)
    (r : Nat → Nat × Nat) (fuel : Nat) (rc : Nat × Nat) (hg : GReachable g)
    (heat : check_collision (postMove ks g) g.apple = true)
    (ht : tick ks r fuel rc g = some g') :
    g'.apple.position ∉ g'.snake.positions := by
  have hnc := inv_no_cofire (reachable_inv hg) ks
  have hsc : check_self_collision (postMove ks g) = false := by
    cases h : check_self_collision (postMove ks g)
    · rfl
    · exact absurd ⟨heat, h⟩ hnc
  simp only [tick] at ht
  rw [if_pos heat] at ht
  cases hf : findFreeIdx r ((postMove ks g).grow).positions fuel 0 with
  | none => rw [hf] at ht; exact absurd ht (by simp)
  | some n =>
    rw [hf] at ht
    simp only [Option.map_some', Option.some.injEq] at ht
    rw [if_neg (by simp [check_self_collision_grow, hsc])] at ht
    subst ht
    simpa using findFreeIdx_spec r _ fuel 0 n hf

/-- The game state after construction in `main`, with the apple drawn one
cell to the right of the snake. -/
def g0 : GameState := initialState (17, 12)

/-- Sample streams that feed the eating-branch relocation during the
counterexample trace. -/
def rEat1 : Nat → Nat × Nat := fun _ => (18, 12)

def rEat2 : Nat → Nat × Nat := fun _ => (19, 12)

def rEat3 : Nat → Nat × Nat := fun _ => (20, 12)

def rEat4 : Nat → Nat × Nat := fun _ => (0, 0)

def g1 : GameState :=
  { snake := { length := 2, positions := [(340, 240)], direction := (1, 0),
               next_direction := none, position := (340, 240), last := some (320, 240) },
    apple := { position := (360, 240) } }

def g2 : GameState :=
  { snake := { length := 3, positions := [(360, 240), (340, 240)], direction := (1, 0),
               next_direction := none, position := (360, 240), last := some (340, 240) },
    apple := { position := (380, 240) } }

def g3 : GameState :=
  { snake := { length := 4, positions := [(380, 240), (360, 240), (340, 240)],
               direction := (1, 0), next_direction := none, position := (380, 240),
               last := some (340, 240) },
    apple := { position := (400, 240) } }

def g4 : GameState :=
  { snake := { length := 5,
               positions := [(400, 240), (380, 240), (360, 240), (340, 240)],
               direction := (1, 0), next_direction := none, position := (400, 240),
               last := some (340, 240) },
    apple := { position := (0, 0) } }

def g5 : GameState :=
  { snake := { length := 5,
               positions := [(400, 220), (400, 240), (380, 240), (360, 240), (340, 240)],
               direction := (0, -1), next_direction := none, position := (400, 220),
               last := some (340, 240) },
    apple := { position := (0, 0) } }

def g6 : GameState :=
  { snake := { length := 5,
               positions := [(380, 220), (400, 220), (400, 240), (380, 240), (360, 240)],
               direction := (-1, 0), next_direction := none, position := (380, 220),
               last := some (340, 240) },
    apple := { position := (0, 0) } }

/-- The state after the self-collision tick: the snake is reset to the start
cell and the apple is randomized onto that very cell. -/
def g7 : GameState :=
  { snake := { length := 1, positions := [(320, 240)], direction := (1, 0),
               next_direction := none, position := (320, 240), last := none },
    apple := { position := (320, 240) } }

lemma reach_g0 : GReachable g0 := GReachable.init (17, 12) (by decide)

lemma reach_g1 : GReachable g1 :=
  GReachable.step g0 [] rEat1 1 (0, 0) g1 reach_g0 (fun _ => (by decide : inRange (18, 12))) (by decide)
    (by decide)

lemma reach_g2 : GReachable g2 :=
  GReachable.step g1 [] rEat2 1 (0, 0) g2 reach_g1 (fun _ => (by decide : inRange (19, 12))) (by decide)
    (by decide)

lemma reach_g3 : GReachable g3 :=
  GReachable.step g2 [] rEat3 1 (0, 0) g3 reach_g2 (fun _ => (by decide : inRange (20, 12))) (by decide)
    (by decide)

lemma reach_g4 : GReachable g4 :=
  GReachable.step g3 [] rEat4 1 (0, 0) g4 reach_g3 (fun _ => (by decide : inRange (0, 0))) (by decide)
    (by decide)

lemma reach_g5 : GReachable g5 :=
  GReachable.step g4 [Key.up] rEat4 1 (0, 0) g5 reach_g4 (fun _ => (by decide : inRange (0, 0))) (by decide)
    (by decide)

lemma reach_g6 : GReachable g6 :=
  GReachable.step g5 [Key.left] rEat4 1 (0, 0) g6 reach_g5 (fun _ => (by decide : inRange (0, 0)))
    (by decide) (by decide)

/-- C1 counterexample: the claim as stated is false.  From the reachable
state `g6`, pressing the down arrow makes the snake collide with itself;
the self-collision branch resets the snake to the start cell and calls
`randomize_position` with no exclusion, and the drawn in-range sample
`(16, 12)` puts the food exactly on the reset snake's only segment: right
after this tick-loop food placement the food's position equals a snake
segment's position. -/
theorem food_replacement_avoids_snake_false :
    GReachable g6 ∧
    inRange (16, 12) ∧
    check_self_collision (postMove [Key.down] g6) = true ∧
    tick [Key.down] rEat4 1 (16, 12) g6 = some g7 ∧
    g7.apple.position ∈ g7.snake.positions :=
  ⟨reach_g6, by decide, by decide, by decide, by decide⟩

theorem eat_branch_relocation_avoids_snake_witness :
    g1.apple.position ∉ g1.snake.positions :=
  eat_branch_relocation_avoids_snake g0 g1 [] rEat1 1 (0, 0) reach_g0 (by decide)
    (by decide)

/-! Position representation (claims C7 and C10). -/

/-- C7 counterexample: positions are not grid-cell coordinates.  Already in
the initial state the snake's only segment is `(320, 240)` — the start
position in pixels — whose x-coordinate is at least `GRID_WIDTH = 32`, so it
does not lie within the grid bounds in cells. -/
theorem positions_in_cell_bounds_false :
    GReachable (initialState (0, 0)) ∧
    ((320 : Int), (240 : Int)) ∈ (initialState (0, 0)).snake.positions ∧
    GRID_WIDTH ≤ 320 :=
  ⟨GReachable.init (0, 0) (by decide), by decide, by decide⟩

/-- C7 (amended): every position held by the snake's segments and by the
food is a pair of integer pixel coordinates, each a multiple of the cell
size, with `0 ≤ x < SCREEN_WIDTH` and `0 ≤ y < SCREEN_HEIGHT` (equivalently,
the cell indices `x / 20`, `y / 20` lie within the grid bounds). -/
theorem positions_are_aligned_pixels (g : GameState) (hg : GReachable g) :
    (∀ p ∈ g.snake.positions, posOK p) ∧ posOK g.apple.position := by
  obtain ⟨-, -, hall, happ, -⟩ := reachable_inv hg
  exact ⟨hall, happ⟩

theorem positions_are_aligned_pixels_witness :
    posOK ((320 : Int), (240 : Int)) ∧ posOK (initialState (16, 12)).apple.position :=
  ⟨(positions_are_aligned_pixels (initialState (16, 12))
      (GReachable.init (16, 12) (by decide))).1 (320, 240) (by decide),
    (positions_are_aligned_pixels (initialState (16, 12))
      (GReachable.init (16, 12) (by decide))).2⟩

/-- C10: in every reachable state, every coordinate of every snake segment
and of the food position is a non-negative multiple of the cell size. -/
theorem coordinates_are_cell_multiples (g : GameState) (hg : GReachable g) :
    (∀ p ∈ g.snake.positions,
      0 ≤ p.1 ∧ GRID_SIZE ∣ p.1 ∧ 0 ≤ p.2 ∧ GRID_SIZE ∣ p.2) ∧
    (0 ≤ g.apple.position.1 ∧ GRID_SIZE ∣ g.apple.position.1 ∧
      0 ≤ g.apple.position.2 ∧ GRID_SIZE ∣ g.apple.position.2) := by
  obtain ⟨-, -, hall, happ, -⟩ := reachable_inv hg
  refine ⟨fun p hp => ?_, ?_⟩
  · obtain ⟨a, -, c, d, -, f⟩ := hall p hp
    exact ⟨a, c, d, f⟩
  · obtain ⟨a, -, c, d, -, f⟩ := happ
    exact ⟨a, c, d, f⟩

theorem coordinates_are_cell_multiples_witness :
    (0 ≤ (320 : Int) ∧ GRID_SIZE ∣ (320 : Int) ∧ 0 ≤ (240 : Int) ∧
      GRID_SIZE ∣ (240 : Int)) ∧
    (0 ≤ (initialState (3, 4)).apple.position.1 ∧
      GRID_SIZE ∣ (initialState (3, 4)).apple.position.1 ∧
      0 ≤ (initialState (3, 4)).apple.position.2 ∧
      GRID_SIZE ∣ (initialState (3, 4)).apple.position.2) :=
  ⟨(coordinates_are_cell_multiples (initialState (3, 4))
      (GReachable.init (3, 4) (by decide))).1 (320, 240) (by decide),
    (coordinates_are_cell_multiples (initialState (3, 4))
      (GReachable.init (3, 4) (by decide))).2⟩

/-! Termination of the relocation loop (claim C8). -/

/-- A sample stream that always draws the cell `(0, 0)`. -/
def constZeroSample : Nat → Nat × Nat := fun _ => (0, 0)

lemma findFreeIdx_constZero_none :
    ∀ fuel start, findFreeIdx constZeroSample [((0 : Int), (0 : Int))] fuel start = none := by
  intro fuel
  induction fuel with
  | zero => intro start; rfl
  | succ fuel ih =>
    intro start
    have hmem : randomize_position (constZeroSample start) ∈ [((0 : Int), (0 : Int))] := by
      show randomize_position ((0, 0) : Nat × Nat) ∈ [((0 : Int), (0 : Int))]
      decide
    rw [findFreeIdx, if_pos hmem]
    exact ih (start + 1)

/-- C8 counterexample: the claim as stated is false.  With the excluded set
`{(0, 0)}` — a strict subset of the grid cells — and the in-range random
sequence that always draws cell `(0, 0)`, the sampling loop never stops. -/
theorem relocation_terminates_false :
    ¬(∀ (r : Nat → Nat × Nat) (excl : List Position), (∀ n, inRange (r n)) →
        (∀ p ∈ excl, posOK p) → (∃ p, posOK p ∧ p ∉ excl) →
        ∃ fuel n, findFreeIdx r excl fuel 0 = some n) := by
  intro h
  obtain ⟨fuel, n, hfn⟩ := h constZeroSample [((0 : Int), (0 : Int))]
    (fun _ => (by decide : inRange (0, 0))) (by decide)
    ⟨((20 : Int), (0 : Int)), by decide, by decide⟩
  rw [findFreeIdx_constZero_none fuel 0] at hfn
  exact Option.noConfusion hfn

lemma findFreeIdx_terminates (r : Nat → Nat × Nat) (excl : List Position) :
    ∀ m start, randomize_position (r (start + m)) ∉ excl →
      ∃ fuel n, findFreeIdx r excl fuel start = some n ∧
        randomize_position (r n) ∉ excl := by
  intro m
  induction m with
  | zero =>
    intro start h
    rw [Nat.add_zero] at h
    exact ⟨1, start, by rw [findFreeIdx, if_neg h], h⟩
  | succ m ih =>
    intro start h
    by_cases hmem : randomize_position (r start) ∈ excl
    · obtain ⟨fuel, n, hfn, hn⟩ := ih (start + 1)
        (by rw [show start + 1 + m = start + (m + 1) from by omega]; exact h)
      exact ⟨fuel + 1, n, by rw [findFreeIdx, if_pos hmem]; exact hfn, hn⟩
    · exact ⟨1, start, by rw [findFreeIdx, if_neg hmem], hmem⟩

lemma posOK_exists_sample (p : Position) (h : posOK p) :
    ∃ rp : Nat × Nat, inRange rp ∧ randomize_position rp = p := by
  obtain ⟨x, y⟩ := p
  obtain ⟨h1, h2, hda, h4, h5, hdb⟩ := h
  obtain ⟨a, ha⟩ := hda
  obtain ⟨b, hb⟩ := hdb
  rw [show GRID_SIZE = 20 from rfl] at ha hb
  rw [show SCREEN_WIDTH = 640 from rfl] at h2
  rw [show SCREEN_HEIGHT = 480 from rfl] at h5
  simp only at h1 h2 ha h4 h5 hb
  refine ⟨(a.toNat, b.toNat), ⟨?_, ?_⟩, ?_⟩
  · show ((a.toNat : Int)) ≤ GRID_WIDTH - 1
    rw [GRID_WIDTH_eq]
    omega
  · show ((b.toNat : Int)) ≤ GRID_HEIGHT - 1
    rw [GRID_HEIGHT_eq]
    omega
  · show ((a.toNat : Int) * GRID_SIZE, (b.toNat : Int) * GRID_SIZE) = ((x, y) : Position)
    rw [show GRID_SIZE = 20 from rfl]
    simp only [Prod.mk.injEq]
    omega

/-- C8 (amended): the sampling loop stops — at a free cell — for every
random sequence that eventually draws a cell outside the excluded set; and
when the excluded set omits at least one grid cell (in particular whenever
it is a strict subset of the grid cells), an in-range sample pair reaching a
free cell exists.  Termination is not guaranteed for every individual
sequence (see the counterexample), only made possible. -/
theorem relocation_terminates_on_free_hit :
    (∀ (r : Nat → Nat × Nat) (excl : List Position) (m : Nat),
      randomize_position (r m) ∉ excl →
      ∃ fuel n, findFreeIdx r excl fuel 0 = some n ∧
        randomize_position (r n) ∉ excl) ∧
    (∀ excl : List Position, (∃ p, posOK p ∧ p ∉ excl) →
      ∃ rp : Nat × Nat, inRange rp ∧ randomize_position rp ∉ excl) := by
  constructor
  · intro r excl m hm
    exact findFreeIdx_terminates r excl m 0 (by simpa using hm)
  · rintro excl ⟨p, hpOK, hpnot⟩
    obtain ⟨rp, hrp, heq⟩ := posOK_exists_sample p hpOK
    exact ⟨rp, hrp, heq ▸ hpnot⟩

theorem relocation_terminates_on_free_hit_witness :
    (∃ fuel n, findFreeIdx constSample [((0 : Int), (0 : Int))] fuel 0 = some n ∧
      randomize_position (constSample n) ∉ [((0 : Int), (0 : Int))]) ∧
    (∃ rp : Nat × Nat, inRange rp ∧
      randomize_position rp ∉ [((0 : Int), (0 : Int))]) :=
  ⟨relocation_terminates_on_free_hit.1 constSample [((0 : Int), (0 : Int))] 0 (by decide),
    relocation_terminates_on_free_hit.2 [((0 : Int), (0 : Int))]
      ⟨((20 : Int), (0 : Int)), by decide, by decide⟩⟩

end TheSnake
